import Mathlib

/-!
Verification of the fingerprint-generator core (`src/fingerprint-generator.js`).

The JavaScript source is shallowly embedded: JavaScript objects become
association lists with JS object semantics (insertion order kept, assignment
to an existing key updates in place, assignment to a fresh key appends,
`delete` removes, `for ... in` enumerates in that order), JS strings become
Lean `String`, and the dynamic values produced by `JSON.parse` become the
inductive `JsonValue`.  External collaborators (the header generator and the
Bayesian-network sampler) are parameters: `getFingerprint` is modelled as a
function of the header map the header generator returned and of the sampler,
the sampler being a function from the observed `userAgent` value (possibly
`undefined`, i.e. `none`) to the raw sample it produces.

Core string primitives (`split`, `startsWith`, `slice`, `JSON.parse`) are
re-implemented structurally so that every definition evaluates inside the
kernel; each mirrors the JavaScript builtin on the inputs the program feeds
it (ASCII, single-character separators, escape-free JSON strings).
-/

namespace FPGen

/-- Dynamic JavaScript values as produced by `JSON.parse`: null, booleans,
(integer) numbers, strings, arrays and objects.  Objects are association
lists in key insertion order. -/
inductive JsonValue : Type
  | null : JsonValue
  | bool (b : Bool) : JsonValue
  | num (n : Int) : JsonValue
  | str (s : String) : JsonValue
  | arr (elems : List JsonValue) : JsonValue
  | obj (fields : List (String × JsonValue)) : JsonValue

/-- A JavaScript object whose values are dynamic values (the fingerprint
under construction). -/
abbrev Obj := List (String × JsonValue)

/-- A JavaScript object whose values are strings: the header map returned by
the header generator. -/
abbrev HeaderMap := List (String × String)

/-- The raw sample returned by the Bayesian network: attribute name to
string value. -/
abbrev RawSample := List (String × String)

/-- JS `k in o`: does the object have the key? -/
def objHas (o : List (String × α)) (k : String) : Bool :=
  o.any (fun kv => kv.1 == k)

/-- JS `o[k]`: `some` value when the key is present, `none` (undefined)
otherwise. -/
def objGet (o : List (String × α)) (k : String) : Option α :=
  (o.find? (fun kv => kv.1 == k)).map (fun kv => kv.2)

/-- JS `o[k] = v`: update in place when the key exists, append otherwise. -/
def objSet (o : List (String × α)) (k : String) (v : α) : List (String × α) :=
  if objHas o k then o.map (fun kv => if kv.1 == k then (k, v) else kv)
  else o ++ [(k, v)]

/-- JS `delete o[k]`. -/
def objDel (o : List (String × α)) (k : String) : List (String × α) :=
  o.filter (fun kv => kv.1 != k)

/-- JS `String.prototype.split` with a single-character separator, on char
lists: `"".split(sep)` is `[""]`, separators at the ends produce empty
segments. -/
def splitChar (sep : Char) : List Char → List (List Char)
  | [] => [[]]
  | c :: cs =>
    let rest := splitChar sep cs
    if c == sep then [] :: rest
    else
      match rest with
      | g :: gs => (c :: g) :: gs
      | [] => [[c]]

/-- JS `s.split(sep)` for a one-character separator `sep`. -/
def strSplit (s : String) (sep : Char) : List String :=
  (splitChar sep s.data).map String.mk

/-- JS `String.prototype.startsWith` on char lists. -/
def startsWithL : List Char → List Char → Bool
  | _, [] => true
  | [], _ :: _ => false
  | c :: cs, p :: ps => c == p && startsWithL cs ps

/-- JS `s.startsWith(p)`. -/
def strStartsWith (s p : String) : Bool :=
  startsWithL s.data p.data

/-- JS `s.slice(n)` for a nonnegative `n` (ASCII inputs). -/
def strDrop (s : String) (n : Nat) : String :=
  String.mk (s.data.drop n)

/-- Sentinel marking an attribute the dataset has no value for
(`MISSING_VALUE_DATASET_TOKEN` in the source). -/
def MISSING_VALUE_DATASET_TOKEN : String := "*MISSING_VALUE*"

/-- Sentinel marking a serialized structured value ( `STRINGIFIED_PREFIX`
in the source). -/
def STRINGIFIED_PREFIX : String := "*STRINGIFIED*"

end FPGen

namespace FPGen

/-- Skip JSON whitespace. -/
def skipWs : List Char → List Char
  | c :: cs =>
    if c == ' ' || c == '\t' || c == '\n' || c == '\r' then skipWs cs
    else c :: cs
  | [] => []

/-- Parse the remainder of a JSON string literal after the opening quote.
Models `JSON.parse` string handling on escape-free strings.  An unescaped
control character is rejected exactly as the builtin rejects it; a
backslash is rejected too — escape sequences are outside the modelled
fragment, so on strings containing one the model fails where the builtin
may succeed.  That direction is conservative: no theorem in this file
concludes anything from a model parse failure, so a model-only rejection
never asserts behaviour the program lacks. -/
def parseStringRest : List Char → Option (String × List Char)
  | [] => none
  | c :: cs =>
    if c == '"' then some ("", cs)
    else if c == '\\' || decide (c.toNat < 32) then none
    else
      match parseStringRest cs with
      | some (s, rest) => some (String.mk (c :: s.data), rest)
      | none => none

/-- Take a maximal run of decimal digits. -/
def takeDigits : List Char → (List Char × List Char)
  | [] => ([], [])
  | c :: cs =>
    if c.isDigit then
      let p := takeDigits cs
      (c :: p.1, p.2)
    else ([], c :: cs)

/-- Decimal digits to a natural number. -/
def digitsToNat (ds : List Char) : Nat :=
  ds.foldl (fun acc c => acc * 10 + (c.toNat - 48)) 0

/-- An integer numeral of the modelled `JSON.parse` fragment: no leading
zero (the builtin's JSON grammar rejects `01` with a SyntaxError, modelled
faithfully here) and at most 15 digits, so the value is exactly
representable as an IEEE double and the builtin returns it unchanged.
Longer numerals — which the builtin would round — are rejected, again the
conservative direction. -/
def jsonNumOk (ds : List Char) : Bool :=
  (match ds with
   | '0' :: _ :: _ => false
   | _ => true) && decide (ds.length ≤ 15)

/-- Work items of the JSON parser: a value to parse, or the tail of an
array / object whose opening bracket and earlier items are already
consumed. -/
inductive ParseTask : Type
  | value (input : List Char) : ParseTask
  | arrTail (input : List Char) (acc : List JsonValue) : ParseTask
  | objTail (input : List Char) (acc : List (String × JsonValue)) : ParseTask

/-- Fuel-indexed JSON parser (model of the `JSON.parse` builtin, restricted
to integer numbers and escape-free strings).  Structural recursion on the
fuel keeps every run kernel-evaluable. -/
def parseRun : Nat → ParseTask → Option (JsonValue × List Char)
  | 0, _ => none
  | Nat.succ f, ParseTask.value input =>
    match skipWs input with
    | [] => none
    | c :: rest =>
      if c == '"' then
        match parseStringRest rest with
        | some (s, rest2) => some (JsonValue.str s, rest2)
        | none => none
      else if c == '[' then
        match skipWs rest with
        | ']' :: rest2 => some (JsonValue.arr [], rest2)
        | other => parseRun f (ParseTask.arrTail other [])
      else if c == '{' then
        match skipWs rest with
        | '}' :: rest2 => some (JsonValue.obj [], rest2)
        | other => parseRun f (ParseTask.objTail other [])
      else if c == 't' then
        match rest with
        | 'r' :: 'u' :: 'e' :: rest2 => some (JsonValue.bool true, rest2)
        | _ => none
      else if c == 'f' then
        match rest with
        | 'a' :: 'l' :: 's' :: 'e' :: rest2 => some (JsonValue.bool false, rest2)
        | _ => none
      else if c == 'n' then
        match rest with
        | 'u' :: 'l' :: 'l' :: rest2 => some (JsonValue.null, rest2)
        | _ => none
      else if c == '-' then
        match takeDigits rest with
        | ([], _) => none
        | (ds, rest2) =>
          if jsonNumOk ds then
            some (JsonValue.num (-(digitsToNat ds : Int)), rest2)
          else none
      else if c.isDigit then
        match takeDigits (c :: rest) with
        | (ds, rest2) =>
          if jsonNumOk ds then
            some (JsonValue.num (digitsToNat ds : Int), rest2)
          else none
      else none
  | Nat.succ f, ParseTask.arrTail input acc =>
    match parseRun f (ParseTask.value input) with
    | none => none
    | some (v, rest) =>
      match skipWs rest with
      | ',' :: rest2 => parseRun f (ParseTask.arrTail rest2 (acc ++ [v]))
      | ']' :: rest2 => some (JsonValue.arr (acc ++ [v]), rest2)
      | _ => none
  | Nat.succ f, ParseTask.objTail input acc =>
    match skipWs input with
    | '"' :: rest =>
      match parseStringRest rest with
      | none => none
      | some (k, rest2) =>
        match skipWs rest2 with
        | ':' :: rest3 =>
          match parseRun f (ParseTask.value rest3) with
          | none => none
          | some (v, rest4) =>
            match skipWs rest4 with
            | ',' :: rest5 => parseRun f (ParseTask.objTail rest5 (acc ++ [(k, v)]))
            | '}' :: rest5 => some (JsonValue.obj (acc ++ [(k, v)]), rest5)
            | _ => none
        | _ => none
    | _ => none

/-- Model of `JSON.parse`: `some` value on success, `none` where the builtin
throws a syntax error.  The modelled fragment is escape-free strings and
integer numerals of at most 15 digits; leading-zero numerals and unescaped
control characters are rejected exactly as the builtin rejects them, while
escapes, fractions, exponents and longer numerals make the model reject
where the builtin may succeed — conservative, since no theorem below
draws a conclusion from a model parse failure. -/
def jsonParse (s : String) : Option JsonValue :=
  match parseRun (4 * (s.length + 1)) (ParseTask.value s.data) with
  | some (v, rest) => if skipWs rest == [] then some v else none
  | none => none

end FPGen

example : FPGen.jsonParse "[1,2,3]" =
    some (.arr [.num 1, .num 2, .num 3]) := rfl

example : FPGen.jsonParse "\x7b\"plugins\": \"*STRINGIFIED*[1,2,3]\"\x7d" =
    some (.obj [("plugins", .str "*STRINGIFIED*[1,2,3]")]) := rfl

namespace FPGen

/-- Errors the embedded program can raise. -/
inductive JsError : Type
  | validationError (field : String)
  | typeErrorUndefinedSplit
  | jsonParseError (s : String)

/-- Source line 76: `"User-Agent" in headers ? headers["User-Agent"] :
headers["user-agent"]`.  `none` is JavaScript `undefined`. -/
def userAgentOf (headers : HeaderMap) : Option String :=
  if objHas headers "User-Agent" then objGet headers "User-Agent"
  else objGet headers "user-agent"

/-- Source line 104: the Accept-Language value, canonical key first. -/
def acceptLanguageOf (headers : HeaderMap) : Option String :=
  if objHas headers "Accept-Language" then objGet headers "Accept-Language"
  else objGet headers "accept-language"

/-- Source line 107: `locale.split(";")[0]`. -/
def localeOf (segment : String) : String :=
  (strSplit segment ';').headD ""

/-- Source lines 105-108: split the Accept-Language value on `,` and keep
the locale portion of each segment, in order. -/
def acceptedLanguagesOf (headerValue : String) : List String :=
  (strSplit headerValue ',').map localeOf

/-- The JSON value stored under `languages` (source line 109). -/
def languagesValue (headerValue : String) : JsonValue :=
  JsonValue.arr ((acceptedLanguagesOf headerValue).map JsonValue.str)

/-- Source lines 83-87, for one attribute value: the missing-value sentinel
drops the key (`none`), a stringified value is decoded with `JSON.parse`
(a decode failure is the builtin's thrown syntax error), anything else
stays a plain string. -/
def decodeRawValue (s : String) : Except JsError (Option JsonValue) :=
  if s == MISSING_VALUE_DATASET_TOKEN then Except.ok none
  else if strStartsWith s STRINGIFIED_PREFIX then
    match jsonParse (strDrop s STRINGIFIED_PREFIX.length) with
    | some v => Except.ok (some v)
    | none => Except.error (JsError.jsonParseError s)
  else Except.ok (some (JsonValue.str s))

/-- Source lines 82-88: the first normalization pass over the raw sample.
The JS loop mutates in place (deleting the current key or replacing its
value), which over a JS object equals this order-preserving filter-map;
an error aborts at the first offending attribute in iteration order. -/
def normalizeSample : RawSample → Except JsError Obj
  | [] => Except.ok []
  | (k, s) :: rest =>
    match decodeRawValue s with
    | Except.error e => Except.error e
    | Except.ok none => normalizeSample rest
    | Except.ok (some v) =>
      match normalizeSample rest with
      | Except.error e => Except.error e
      | Except.ok tail => Except.ok ((k, v) :: tail)

/-- Keys `for ... in` enumerates on a dynamic value: an object's own keys,
an array's indices, a string's character indices; nothing on the other
primitives. -/
def enumerableEntries : JsonValue → List (String × JsonValue)
  | JsonValue.obj fields => fields
  | JsonValue.arr elems =>
    elems.enum.map (fun p => (toString p.1, p.2))
  | JsonValue.str s =>
    s.data.enum.map (fun p => (toString p.1, JsonValue.str (String.mk [p.2])))
  | _ => []

/-- Source lines 90-95 and 97-102: when `container` is a key of the
fingerprint, copy every enumerable entry of its value to the top level
(assignment semantics: overwrite in place or append) and delete the
container.  The source re-reads `fingerprint[container]` on every loop
iteration while enumerating the keys of the value fetched at loop entry;
this definition reads the container once, which coincides with the source
exactly when the enumerated mapping does not itself use the key
`container` — then no iteration overwrites the container being read.
Outside that region the source hoists later values from the overwritten
container and can throw a TypeError when that value is null; every
theorem below about hoisted results carries hypotheses confining it to
the faithful region. -/
def hoistInto (fp : Obj) (container : String) : Obj :=
  if objHas fp container then
    let inner := (objGet fp container).getD JsonValue.null
    objDel ((enumerableEntries inner).foldl (fun acc e => objSet acc e.1 e.2) fp)
      container
  else fp

/-- The value returned by `getFingerprint` (source lines 111-114). -/
structure GenResult : Type where
  fingerprint : Obj
  headers : HeaderMap

/-- Source lines 82-114 given the header map and the raw sample: normalize,
hoist `pluginCharacteristics` then `screenCharacteristics`, then derive
`languages` from the Accept-Language header.  When neither Accept-Language
key form exists, line 106 calls `split` on `undefined` and throws a
TypeError. -/
def assembleFingerprint (headers : HeaderMap) (raw : RawSample) :
    Except JsError GenResult :=
  match normalizeSample raw with
  | Except.error e => Except.error e
  | Except.ok fp0 =>
    let fp1 := hoistInto fp0 "pluginCharacteristics"
    let fp2 := hoistInto fp1 "screenCharacteristics"
    match acceptLanguageOf headers with
    | none => Except.error JsError.typeErrorUndefinedSplit
    | some al =>
      Except.ok ⟨objSet fp2 "languages" (languagesValue al), headers⟩

/-- `getFingerprint` after validation (source lines 75-114), with the two
external collaborators abstracted: `headers` is the map the header
generator returned, `sampler` the Bayesian network, fed the observed
`userAgent` value (possibly `undefined`). -/
def getFingerprint (headers : HeaderMap)
    (sampler : Option String → RawSample) : Except JsError GenResult :=
  assembleFingerprint headers (sampler (userAgentOf headers))

end FPGen

namespace FPGen

/-- Is the dynamic value a string? -/
def isStr : JsonValue → Bool
  | JsonValue.str _ => true
  | _ => false

/-- Is the dynamic value a number? -/
def isNum : JsonValue → Bool
  | JsonValue.num _ => true
  | _ => false

/-- The top-level keys `headerGeneratorOptionsShape` declares (source
lines 25-31). -/
def knownOptionKeys : List String :=
  ["browsers", "operatingSystems", "devices", "locales", "httpVersion"]

/-- One field of `browserSpecificationShape` (source lines 18-23):
`name` a string, `minVersion`/`maxVersion` numbers, `httpVersion` a string;
`exactShape` rejects any other key. -/
def browserSpecFieldOk (k : String) (v : JsonValue) : Bool :=
  if k == "name" then isStr v
  else if k == "minVersion" then isNum v
  else if k == "maxVersion" then isNum v
  else if k == "httpVersion" then isStr v
  else false

/-- `ow.object.exactShape(browserSpecificationShape)`: every present field
matches the shape and the required `name` field is present. -/
def browserSpecOk : JsonValue → Bool
  | JsonValue.obj fields =>
    fields.all (fun kv => browserSpecFieldOk kv.1 kv.2) && objHas fields "name"
  | _ => false

/-- A `browsers` element: a browser-specification object or a string. -/
def browserEntryOk (v : JsonValue) : Bool :=
  browserSpecOk v || isStr v

/-- `ow.optional.array.ofType(ow.string)`. -/
def isArrayOfStr : JsonValue → Bool
  | JsonValue.arr elems => elems.all isStr
  | _ => false

/-- One top-level option field against `headerGeneratorOptionsShape`: a
known key with a value of the declared shape.  An unknown key yields
`false` (rejected by `exactShape`).  Note the shape puts no length bound
on `locales`. -/
def optionFieldOk (k : String) (v : JsonValue) : Bool :=
  if k == "browsers" then
    match v with
    | JsonValue.arr elems => elems.all browserEntryOk
    | _ => false
  else if k == "operatingSystems" then isArrayOfStr v
  else if k == "devices" then isArrayOfStr v
  else if k == "locales" then isArrayOfStr v
  else if k == "httpVersion" then isStr v
  else false

/-- Source lines 64 and 74: `ow(options, 'HeaderGeneratorOptions',
ow.object.exactShape(headerGeneratorOptionsShape))`.  The error carries the
offending field's name (the label when the value is not an object at all). -/
def validateOptions : JsonValue → Except String Unit
  | JsonValue.obj fields =>
    match fields.find? (fun kv => !optionFieldOk kv.1 kv.2) with
    | some kv => Except.error kv.1
    | none => Except.ok ()
  | _ => Except.error "HeaderGeneratorOptions"

/-- The whole `getFingerprint` entry (source lines 73-115): validate the
call options, then run the pipeline on the header generator's output and
the sampler.  The same shape check guards the constructor (line 64). -/
def getFingerprintChecked (options : JsonValue) (headers : HeaderMap)
    (sampler : Option String → RawSample) : Except JsError GenResult :=
  match validateOptions options with
  | Except.error f => Except.error (JsError.validationError f)
  | Except.ok _ => getFingerprint headers sampler

end FPGen

namespace FPGen

/-- The value the LAST binding of a key in an entry list carries (JS
assignment semantics: later assignments win). -/
def lastVal : List (String × α) → String → Option α
  | [], _ => none
  | e :: rest, k =>
    match lastVal rest k with
    | some v => some v
    | none => if e.1 == k then some e.2 else none

theorem objGet_eq_none_of_not_has {o : List (String × α)} {k : String}
    (h : objHas o k = false) : objGet o k = none := by
  induction o with
  | nil => rfl
  | cons kv rest ih =>
    simp only [objHas, List.any_cons, Bool.or_eq_false_iff] at h
    simp only [objGet, List.find?_cons, h.1, Option.map]
    exact ih (by simpa [objHas] using h.2)

theorem objHas_exists {o : List (String × α)} {k : String}
    (h : objHas o k = true) : ∃ v, (k, v) ∈ o := by
  induction o with
  | nil => simp [objHas] at h
  | cons kv rest ih =>
    simp only [objHas, List.any_cons, Bool.or_eq_true, beq_iff_eq] at h
    rcases h with h | h
    · exact ⟨kv.2, by simp [← h]⟩
    · rcases ih (by simpa [objHas] using h) with ⟨v, hv⟩
      exact ⟨v, List.mem_cons_of_mem _ hv⟩

theorem objGet_mem {o : List (String × α)} {k : String} {v : α}
    (h : objGet o k = some v) : (k, v) ∈ o := by
  unfold objGet at h
  cases hfind : List.find? (fun kv => kv.1 == k) o with
  | none => rw [hfind] at h; simp at h
  | some kv =>
    rw [hfind] at h
    simp at h
    have hmem : kv ∈ o := List.mem_of_find?_eq_some hfind
    have hkey := List.find?_some hfind
    have hkv : kv = (k, v) := by
      cases kv with
      | mk a b =>
        simp at hkey h
        simp [hkey, h]
    rwa [hkv] at hmem

theorem objGet_objSet (o : List (String × α)) (k : String) (v : α)
    (k2 : String) :
    objGet (objSet o k v) k2 = if k2 = k then some v else objGet o k2 := by
  unfold objSet
  by_cases h : objHas o k
  · simp only [h, if_true]
    induction o with
    | nil => simp [objHas] at h
    | cons kv rest ih =>
      simp only [objHas, List.any_cons, Bool.or_eq_true, beq_iff_eq] at h
      by_cases hk : kv.1 = k
      · simp only [List.map_cons, hk, beq_self_eq_true, if_true]
        by_cases hk2 : k2 = k
        · simp [objGet, List.find?_cons, hk2]
        · simp only [objGet, List.find?_cons]
          have : (k == k2) = false := by
            simp only [beq_eq_false_iff_ne]
            exact fun hh => hk2 hh.symm
          have hkv : (kv.1 == k2) = false := by
            simp only [beq_eq_false_iff_ne, hk]
            exact fun hh => hk2 hh.symm
          simp only [this, hkv, if_neg hk2]
          -- remaining: find? over rest.map agrees with find? over rest for k2 ≠ k
          clear ih h
          induction rest with
          | nil => rfl
          | cons kv2 rest2 ih2 =>
            simp only [List.map_cons, List.find?_cons]
            by_cases hkk : kv2.1 = k
            · have h1 : (kv2.1 == k) = true := by simp [hkk]
              have h2 : (k == k2) = false := by
                simp only [beq_eq_false_iff_ne]
                exact fun hh => hk2 hh.symm
              have h3 : (kv2.1 == k2) = false := by
                simp only [beq_eq_false_iff_ne, hkk]
                exact fun hh => hk2 hh.symm
              simp only [h1, if_true, h2, h3]
              exact ih2
            · have h1 : (kv2.1 == k) = false := by simp [hkk]
              simp only [h1, Bool.false_eq_true, if_false]
              by_cases h4 : kv2.1 = k2
              · simp [h4]
              · have h5 : (kv2.1 == k2) = false := by simp [h4]
                simp only [h5]
                exact ih2
      · have hkb : (kv.1 == k) = false := by simp [hk]
        have hrest : objHas rest k = true := by
          rcases h with h | h
          · exact absurd h hk
          · simpa [objHas] using h
        simp only [List.map_cons, hkb, Bool.false_eq_true, if_false]
        by_cases h4 : kv.1 = k2
        · simp [objGet, List.find?_cons, h4, if_neg (fun hh : k2 = k => hk (h4.trans hh))]
        · have h5 : (kv.1 == k2) = false := by simp [h4]
          have := ih hrest
          simp only [objHas, hrest, if_true] at this
          simp only [objGet, List.find?_cons, h5, Bool.false_eq_true, if_false] at this ⊢
          exact this
  · simp only [h, Bool.false_eq_true, if_false]
    have hnone : objGet o k = none := objGet_eq_none_of_not_has (by simpa using h)
    by_cases hk2 : k2 = k
    · subst hk2
      simp only [if_true]
      rw [objGet, List.find?_append]
      have : o.find? (fun kv => kv.1 == k2) = none := by
        have := hnone
        unfold objGet at this
        cases hfind : o.find? (fun kv => kv.1 == k2) with
        | none => rfl
        | some x => simp [hfind] at this
      simp [this, List.find?]
    · simp only [if_neg hk2]
      rw [objGet, List.find?_append]
      cases hfind : o.find? (fun kv => kv.1 == k2) with
      | none =>
        have h5 : (k == k2) = false := by
          simp only [beq_eq_false_iff_ne]
          exact fun hh => hk2 hh.symm
        simp [objGet, hfind, List.find?, h5]
      | some x => simp [objGet, hfind]

theorem objGet_objDel (o : List (String × α)) (k k2 : String) :
    objGet (objDel o k) k2 = if k2 = k then none else objGet o k2 := by
  induction o with
  | nil => simp [objDel, objGet, List.find?]
  | cons kv rest ih =>
    by_cases hk : kv.1 = k
    · have h1 : (kv.1 != k) = false := by simp [hk]
      simp only [objDel, List.filter_cons, h1, Bool.false_eq_true, if_false]
      by_cases hk2 : k2 = k
      · simpa [objDel, hk2] using ih
      · have h5 : (kv.1 == k2) = false := by
          simp only [beq_eq_false_iff_ne, hk]
          exact fun hh => hk2 hh.symm
        simp only [objGet, List.find?_cons, h5, Bool.false_eq_true, if_false]
        simpa [objDel, objGet, hk2] using ih
    · have h1 : (kv.1 != k) = true := by simp [hk]
      simp only [objDel, List.filter_cons, h1, if_true]
      by_cases h4 : kv.1 = k2
      · have hne : ¬(k2 = k) := fun hh => hk (h4.trans hh)
        simp [objGet, List.find?_cons, h4, hne]
      · have h5 : (kv.1 == k2) = false := by simp [h4]
        simp only [objGet, List.find?_cons, h5, Bool.false_eq_true, if_false]
        simpa [objDel, objGet] using ih

end FPGen

namespace FPGen

theorem objHas_eq_isSome (o : List (String × α)) (k : String) :
    objHas o k = (objGet o k).isSome := by
  induction o with
  | nil => rfl
  | cons kv rest ih =>
    by_cases hk : kv.1 = k
    · simp [objHas, objGet, List.any_cons, List.find?_cons, hk]
    · have h5 : (kv.1 == k) = false := by simp [hk]
      simp only [objHas, objGet, List.any_cons, List.find?_cons, h5]
      simpa [objHas, objGet] using ih

theorem objGet_foldl_objSet (entries : List (String × α))
    (fp : List (String × α)) (k : String) :
    objGet (entries.foldl (fun acc e => objSet acc e.1 e.2) fp) k =
      match lastVal entries k with
      | some v => some v
      | none => objGet fp k := by
  induction entries generalizing fp with
  | nil => rfl
  | cons e rest ih =>
    simp only [List.foldl_cons, lastVal]
    rw [ih]
    cases hl : lastVal rest k with
    | some v => rfl
    | none =>
      rw [objGet_objSet]
      by_cases hk : k = e.1
      · simp [hk]
      · have h5 : (e.1 == k) = false := by
          simp only [beq_eq_false_iff_ne]
          exact fun hh => hk hh.symm
        simp [hk, h5]

theorem mem_objSet {o : List (String × α)} {k : String} {v : α} {kv : String × α}
    (h : kv ∈ objSet o k v) : kv = (k, v) ∨ kv ∈ o := by
  unfold objSet at h
  by_cases hhas : objHas o k
  · simp only [hhas, if_true] at h
    rcases List.mem_map.mp h with ⟨kv2, hkv2, heq⟩
    by_cases hk : kv2.1 == k
    · left; rw [← heq]; simp [hk]
    · right
      have : (kv2.1 == k) = false := by simpa using hk
      rw [← heq]
      simpa [this] using hkv2
  · simp only [hhas, Bool.false_eq_true, if_false, List.mem_append,
      List.mem_singleton] at h
    tauto

theorem mem_objDel {o : List (String × α)} {k : String} {kv : String × α}
    (h : kv ∈ objDel o k) : kv ∈ o :=
  List.mem_of_mem_filter h

theorem mem_foldl_objSet {entries : List (String × α)}
    {fp : List (String × α)} {kv : String × α}
    (h : kv ∈ entries.foldl (fun acc e => objSet acc e.1 e.2) fp) :
    kv ∈ fp ∨ kv ∈ entries := by
  induction entries generalizing fp with
  | nil => exact Or.inl h
  | cons e rest ih =>
    simp only [List.foldl_cons] at h
    rcases ih h with h2 | h2
    · rcases mem_objSet h2 with h3 | h3
      · right; simp [h3]
      · exact Or.inl h3
    · right; exact List.mem_cons_of_mem _ h2

theorem mem_hoistInto {fp : Obj} {c : String} {kv : String × JsonValue}
    (h : kv ∈ hoistInto fp c) :
    kv ∈ fp ∨ kv ∈ enumerableEntries ((objGet fp c).getD JsonValue.null) := by
  unfold hoistInto at h
  by_cases hhas : objHas fp c
  · simp only [hhas, if_true] at h
    exact mem_foldl_objSet (mem_objDel h)
  · simp only [hhas, Bool.false_eq_true, if_false] at h
    exact Or.inl h

theorem objGet_hoistInto (fp : Obj) (c k : String) :
    objGet (hoistInto fp c) k =
      if objHas fp c then
        if k = c then none
        else
          match lastVal (enumerableEntries ((objGet fp c).getD JsonValue.null)) k with
          | some v => some v
          | none => objGet fp k
      else objGet fp k := by
  unfold hoistInto
  by_cases hhas : objHas fp c
  · simp only [hhas, if_true]
    rw [objGet_objDel, objGet_foldl_objSet]
    by_cases hk : k = c
    · simp [hk]
    · simp only [if_neg hk]
      cases lastVal (enumerableEntries ((objGet fp c).getD JsonValue.null)) k with
      | some v => rfl
      | none => rfl
  · simp [hhas]

theorem objGet_hoistInto_not_has {fp : Obj} {c : String}
    (h : objHas fp c = false) : hoistInto fp c = fp := by
  unfold hoistInto
  simp [h]

end FPGen

namespace FPGen

theorem objHas_of_mem {o : List (String × α)} {k : String} {v : α}
    (h : (k, v) ∈ o) : objHas o k = true := by
  unfold objHas
  rw [List.any_eq_true]
  exact ⟨(k, v), h, by simp⟩

theorem assoc_unique {l : List (String × α)} {k : String} {a b : α}
    (hnd : (l.map Prod.fst).Nodup) (ha : (k, a) ∈ l) (hb : (k, b) ∈ l) :
    a = b := by
  induction l with
  | nil => cases ha
  | cons p rest ih =>
    rw [List.map_cons, List.nodup_cons] at hnd
    rcases List.mem_cons.mp ha with ha1 | ha1 <;>
      rcases List.mem_cons.mp hb with hb1 | hb1
    · rw [← ha1] at hb1
      exact (congrArg Prod.snd hb1).symm
    · exfalso
      apply hnd.1
      rw [← ha1]
      exact List.mem_map.mpr ⟨(k, b), hb1, rfl⟩
    · exfalso
      apply hnd.1
      rw [← hb1]
      exact List.mem_map.mpr ⟨(k, a), ha1, rfl⟩
    · exact ih hnd.2 ha1 hb1

theorem normalizeSample_mem {raw : RawSample} {fp : Obj}
    (h : normalizeSample raw = Except.ok fp) :
    ∀ kv ∈ fp, ∃ s, (kv.1, s) ∈ raw ∧
      decodeRawValue s = Except.ok (some kv.2) := by
  induction raw generalizing fp with
  | nil =>
    simp only [normalizeSample, Except.ok.injEq] at h
    subst h
    intro kv hkv
    cases hkv
  | cons p rest ih =>
    obtain ⟨k, s⟩ := p
    simp only [normalizeSample] at h
    cases hd : decodeRawValue s with
    | error e => rw [hd] at h; cases h
    | ok o =>
      rw [hd] at h
      cases o with
      | none =>
        intro kv hkv
        rcases ih h kv hkv with ⟨s2, hs2, hdec⟩
        exact ⟨s2, List.mem_cons_of_mem _ hs2, hdec⟩
      | some v =>
        cases ht : normalizeSample rest with
        | error e => rw [ht] at h; cases h
        | ok tail =>
          rw [ht] at h
          simp only [Except.ok.injEq] at h
          subst h
          intro kv hkv
          rcases List.mem_cons.mp hkv with h1 | h1
          · subst h1
            exact ⟨s, List.mem_cons_self _ _, hd⟩
          · rcases ih ht kv h1 with ⟨s2, hs2, hdec⟩
            exact ⟨s2, List.mem_cons_of_mem _ hs2, hdec⟩

theorem normalizeSample_drops_missing {raw : RawSample} {fp : Obj}
    {k : String}
    (hnd : (raw.map Prod.fst).Nodup)
    (hmiss : (k, MISSING_VALUE_DATASET_TOKEN) ∈ raw)
    (h : normalizeSample raw = Except.ok fp) :
    objHas fp k = false := by
  by_contra hc
  have hhas : objHas fp k = true := by
    cases hval : objHas fp k with
    | true => rfl
    | false => exact absurd hval hc
  rcases objHas_exists hhas with ⟨v, hv⟩
  rcases normalizeSample_mem h (k, v) hv with ⟨s, hs, hdec⟩
  have hseq : s = MISSING_VALUE_DATASET_TOKEN :=
    assoc_unique hnd hs hmiss
  rw [hseq] at hdec
  have : decodeRawValue MISSING_VALUE_DATASET_TOKEN =
      Except.ok (none : Option JsonValue) := rfl
  rw [this] at hdec
  cases hdec

theorem assembleFingerprint_ok {headers : HeaderMap} {raw : RawSample}
    {fp0 : Obj} {al : String}
    (h1 : normalizeSample raw = Except.ok fp0)
    (h2 : acceptLanguageOf headers = some al) :
    assembleFingerprint headers raw =
      Except.ok ⟨objSet (hoistInto (hoistInto fp0 "pluginCharacteristics")
        "screenCharacteristics") "languages" (languagesValue al), headers⟩ := by
  unfold assembleFingerprint
  rw [h1, h2]

theorem assembleFingerprint_noAcceptLanguage {headers : HeaderMap}
    {raw : RawSample} {fp0 : Obj}
    (h1 : normalizeSample raw = Except.ok fp0)
    (h2 : acceptLanguageOf headers = none) :
    assembleFingerprint headers raw =
      Except.error JsError.typeErrorUndefinedSplit := by
  unfold assembleFingerprint
  rw [h1, h2]

theorem getFingerprint_eq (headers : HeaderMap)
    (sampler : Option String → RawSample) :
    getFingerprint headers sampler =
      assembleFingerprint headers (sampler (userAgentOf headers)) := rfl

end FPGen

namespace FPGen

theorem getFingerprint_ok_shape {headers : HeaderMap}
    {sampler : Option String → RawSample} {r : GenResult}
    (hok : getFingerprint headers sampler = Except.ok r) :
    ∃ fp0 al,
      normalizeSample (sampler (userAgentOf headers)) = Except.ok fp0 ∧
      acceptLanguageOf headers = some al ∧
      r = ⟨objSet (hoistInto (hoistInto fp0 "pluginCharacteristics")
        "screenCharacteristics") "languages" (languagesValue al), headers⟩ := by
  unfold getFingerprint assembleFingerprint at hok
  cases hn : normalizeSample (sampler (userAgentOf headers)) with
  | error e => rw [hn] at hok; cases hok
  | ok fp0 =>
    rw [hn] at hok
    cases hal : acceptLanguageOf headers with
    | none => rw [hal] at hok; cases hok
    | some al =>
      rw [hal] at hok
      refine ⟨fp0, al, rfl, rfl, ?_⟩
      cases hok
      rfl

theorem acceptLanguageOf_canonical {headers : HeaderMap} {a : String}
    (ha : objGet headers "Accept-Language" = some a) :
    acceptLanguageOf headers = some a := by
  unfold acceptLanguageOf
  rw [objHas_eq_isSome, ha]
  simp [ha]

theorem userAgentOf_canonical {headers : HeaderMap} {u : String}
    (hu : objGet headers "User-Agent" = some u) :
    userAgentOf headers = some u := by
  unfold userAgentOf
  rw [objHas_eq_isSome, hu]
  simp [hu]

end FPGen

namespace FPGen

/-- C5: for every call to `getFingerprint` in which the generated header map
contains the entry `Accept-Language = "en-US,en;q=0.9,fr;q=0.8"`, the
returned fingerprint's `languages` value equals the sequence
`["en-US", "en", "fr"]` in that order. -/
theorem c5_languages_from_accept_language
    (headers : HeaderMap) (sampler : Option String → RawSample)
    (r : GenResult)
    (hal : objGet headers "Accept-Language" = some "en-US,en;q=0.9,fr;q=0.8")
    (hok : getFingerprint headers sampler = Except.ok r) :
    objGet r.fingerprint "languages" =
      some (JsonValue.arr [JsonValue.str "en-US", JsonValue.str "en",
        JsonValue.str "fr"]) := by
  rcases getFingerprint_ok_shape hok with ⟨fp0, al, hn, hal2, hr⟩
  have hcanon := acceptLanguageOf_canonical hal
  rw [hcanon] at hal2
  have hale : al = "en-US,en;q=0.9,fr;q=0.8" := by
    injection hal2 with h
    exact h.symm
  subst hale
  rw [hr]
  show objGet (objSet _ "languages" _) "languages" = _
  rw [objGet_objSet]
  simp only [if_pos rfl]
  rfl

theorem c5_witness :
    objGet [("Accept-Language", "en-US,en;q=0.9,fr;q=0.8")]
        "Accept-Language" = some "en-US,en;q=0.9,fr;q=0.8" ∧
    getFingerprint [("Accept-Language", "en-US,en;q=0.9,fr;q=0.8")]
        (fun _ => []) =
      Except.ok ⟨[("languages", JsonValue.arr [JsonValue.str "en-US",
        JsonValue.str "en", JsonValue.str "fr"])],
        [("Accept-Language", "en-US,en;q=0.9,fr;q=0.8")]⟩ ∧
    objGet (GenResult.fingerprint ⟨[("languages",
        JsonValue.arr [JsonValue.str "en-US", JsonValue.str "en",
          JsonValue.str "fr"])],
        [("Accept-Language", "en-US,en;q=0.9,fr;q=0.8")]⟩) "languages" =
      some (JsonValue.arr [JsonValue.str "en-US", JsonValue.str "en",
        JsonValue.str "fr"]) :=
  ⟨rfl, rfl,
    c5_languages_from_accept_language
      [("Accept-Language", "en-US,en;q=0.9,fr;q=0.8")] (fun _ => []) _ rfl rfl⟩

end FPGen

namespace FPGen

/-- C10: when the generated header map contains both the canonical and the
lower-case form of a header key, the canonical form takes precedence:
`getFingerprint` conditions the sampler on `headers["User-Agent"]` rather
than `headers["user-agent"]`, and derives `languages` from
`headers["Accept-Language"]` rather than `headers["accept-language"]`. -/
theorem c10_canonical_precedence
    (headers : HeaderMap) (sampler : Option String → RawSample)
    (u lu a la : String)
    (hu : objGet headers "User-Agent" = some u)
    (_hlu : objGet headers "user-agent" = some lu)
    (ha : objGet headers "Accept-Language" = some a)
    (_hla : objGet headers "accept-language" = some la) :
    userAgentOf headers = some u ∧
    acceptLanguageOf headers = some a ∧
    getFingerprint headers sampler =
      assembleFingerprint headers (sampler (some u)) ∧
    ∀ r, getFingerprint headers sampler = Except.ok r →
      objGet r.fingerprint "languages" = some (languagesValue a) := by
  have hua := userAgentOf_canonical hu
  have hal := acceptLanguageOf_canonical ha
  refine ⟨hua, hal, ?_, ?_⟩
  · rw [getFingerprint_eq, hua]
  · intro r hok
    rcases getFingerprint_ok_shape hok with ⟨fp0, al, hn, hal2, hr⟩
    rw [hal] at hal2
    have hae : al = a := by
      injection hal2 with h
      exact h.symm
    subst hae
    rw [hr]
    show objGet (objSet _ "languages" _) "languages" = _
    rw [objGet_objSet]
    simp

theorem c10_witness :
    objGet [("User-Agent", "canonUA"), ("user-agent", "lowerUA"),
        ("Accept-Language", "en"), ("accept-language", "de")]
        "User-Agent" = some "canonUA" ∧
    (userAgentOf [("User-Agent", "canonUA"), ("user-agent", "lowerUA"),
        ("Accept-Language", "en"), ("accept-language", "de")] =
      some "canonUA" ∧
    acceptLanguageOf [("User-Agent", "canonUA"), ("user-agent", "lowerUA"),
        ("Accept-Language", "en"), ("accept-language", "de")] = some "en" ∧
    getFingerprint [("User-Agent", "canonUA"), ("user-agent", "lowerUA"),
        ("Accept-Language", "en"), ("accept-language", "de")] (fun _ => []) =
      assembleFingerprint [("User-Agent", "canonUA"),
        ("user-agent", "lowerUA"), ("Accept-Language", "en"),
        ("accept-language", "de")] ((fun _ => []) (some "canonUA")) ∧
    ∀ r, getFingerprint [("User-Agent", "canonUA"), ("user-agent", "lowerUA"),
        ("Accept-Language", "en"), ("accept-language", "de")] (fun _ => []) =
        Except.ok r →
      objGet r.fingerprint "languages" = some (languagesValue "en")) :=
  ⟨rfl, c10_canonical_precedence
    [("User-Agent", "canonUA"), ("user-agent", "lowerUA"),
      ("Accept-Language", "en"), ("accept-language", "de")]
    (fun _ => []) "canonUA" "lowerUA" "en" "de" rfl rfl rfl rfl⟩

end FPGen

namespace FPGen

theorem splitChar_ne_nil (sep : Char) (cs : List Char) :
    splitChar sep cs ≠ [] := by
  cases cs with
  | nil => simp [splitChar]
  | cons c rest =>
    unfold splitChar
    by_cases h : c == sep
    · simp [h]
    · simp only [h, Bool.false_eq_true, if_false]
      cases splitChar sep rest with
      | nil => simp
      | cons g gs => simp

theorem strSplit_ne_nil (s : String) (sep : Char) :
    strSplit s sep ≠ [] := by
  unfold strSplit
  intro h
  exact splitChar_ne_nil sep s.data (List.map_eq_nil_iff.mp h)

theorem jsonStr_injective : Function.Injective JsonValue.str := by
  intro a b h
  injection h

/-- C8: for every generated header map containing an Accept-Language value,
the derived `languages` sequence is the segment-wise locale list of the
header: same length as the comma-separated segment list, the i-th entry the
i-th segment with its quality weight discarded (order preserved), it has
duplicates exactly when the header's locale portions repeat, and it is
empty only if the header value is empty. -/
theorem c8_languages_structure
    (headers : HeaderMap) (sampler : Option String → RawSample)
    (r : GenResult) (al : String)
    (hal : acceptLanguageOf headers = some al)
    (hok : getFingerprint headers sampler = Except.ok r) :
    objGet r.fingerprint "languages" =
      some (JsonValue.arr ((acceptedLanguagesOf al).map JsonValue.str)) ∧
    (acceptedLanguagesOf al).length = (strSplit al ',').length ∧
    (∀ i (h : i < (strSplit al ',').length),
      (acceptedLanguagesOf al).get
          ⟨i, by unfold acceptedLanguagesOf; rw [List.length_map]; exact h⟩ =
        localeOf ((strSplit al ',').get ⟨i, h⟩)) ∧
    (((acceptedLanguagesOf al).map JsonValue.str).Nodup ↔
      ((strSplit al ',').map localeOf).Nodup) ∧
    (acceptedLanguagesOf al = [] → al = "") := by
  refine ⟨?_, ?_, ?_, ?_, ?_⟩
  · rcases getFingerprint_ok_shape hok with ⟨fp0, al2, hn, hal2, hr⟩
    rw [hal] at hal2
    have hae : al2 = al := by
      injection hal2 with h
      exact h.symm
    subst hae
    rw [hr]
    show objGet (objSet _ "languages" _) "languages" = _
    rw [objGet_objSet]
    simp only [if_pos rfl]
    rfl
  · unfold acceptedLanguagesOf
    rw [List.length_map]
  · intro i h
    unfold acceptedLanguagesOf
    simp [List.get_eq_getElem, List.getElem_map]
  · constructor
    · intro h
      exact h.of_map
    · intro h
      exact h.map (fun x y hxy => jsonStr_injective hxy)
  · intro h
    exfalso
    unfold acceptedLanguagesOf at h
    exact strSplit_ne_nil al ',' (List.map_eq_nil_iff.mp h)

theorem c8_witness :
    acceptLanguageOf [("Accept-Language", "en,de,en")] = some "en,de,en" ∧
    getFingerprint [("Accept-Language", "en,de,en")] (fun _ => []) =
      Except.ok ⟨[("languages", JsonValue.arr [JsonValue.str "en",
        JsonValue.str "de", JsonValue.str "en"])],
        [("Accept-Language", "en,de,en")]⟩ ∧
    objGet (GenResult.fingerprint ⟨[("languages",
        JsonValue.arr [JsonValue.str "en", JsonValue.str "de",
          JsonValue.str "en"])], [("Accept-Language", "en,de,en")]⟩)
        "languages" =
      some (JsonValue.arr ((acceptedLanguagesOf "en,de,en").map
        JsonValue.str)) :=
  ⟨rfl, rfl,
    (c8_languages_structure [("Accept-Language", "en,de,en")] (fun _ => [])
      ⟨[("languages", JsonValue.arr [JsonValue.str "en", JsonValue.str "de",
          JsonValue.str "en"])], [("Accept-Language", "en,de,en")]⟩
      "en,de,en" rfl rfl).1⟩

end FPGen

namespace FPGen

/-- C1 counterexample: a header map lacking both User-Agent key forms but
carrying Accept-Language.  `getFingerprint` does not fail at all — it
returns a Result — and that Result contains the attribute the sampler
produced when invoked with the undefined userAgent observation, so the
Attribute Sampler was invoked.  This refutes the claim that such a call
fails with MissingHeaderError without invoking the sampler. -/
theorem c1_counterexample :
    objHas [("Accept-Language", "en")] "User-Agent" = false ∧
    objHas [("Accept-Language", "en")] "user-agent" = false ∧
    getFingerprint [("Accept-Language", "en")]
        (fun ua => match ua with
          | none => [("sampledWithUndefined", "yes")]
          | some _ => []) =
      Except.ok ⟨[("sampledWithUndefined", JsonValue.str "yes"),
        ("languages", JsonValue.arr [JsonValue.str "en"])],
        [("Accept-Language", "en")]⟩ :=
  ⟨rfl, rfl, rfl⟩

/-- C1 amended: when the header map contains neither User-Agent key form,
`getFingerprint` performs no User-Agent presence check and raises no
missing-header error: the userAgent read of line 76 is `undefined`
(`none`), the Attribute Sampler is invoked with that undefined
observation — the call's outcome depends on the sampler exactly through
its output at `none` — and the call proceeds as the pipeline of lines
78-114 on that output. -/
theorem c1_amended_no_missing_header_failure
    (headers : HeaderMap) (sampler : Option String → RawSample)
    (h1 : objHas headers "User-Agent" = false)
    (h2 : objHas headers "user-agent" = false) :
    userAgentOf headers = none ∧
    getFingerprint headers sampler =
      assembleFingerprint headers (sampler none) ∧
    ∀ sampler2 : Option String → RawSample, sampler2 none = sampler none →
      getFingerprint headers sampler2 = getFingerprint headers sampler := by
  have hua : userAgentOf headers = none := by
    unfold userAgentOf
    simp only [h1, Bool.false_eq_true, if_false]
    exact objGet_eq_none_of_not_has h2
  refine ⟨hua, ?_, ?_⟩
  · rw [getFingerprint_eq, hua]
  · intro sampler2 hs2
    rw [getFingerprint_eq, getFingerprint_eq, hua, hs2]

theorem c1_amended_witness :
    objHas [("Accept-Language", "en")] "User-Agent" = false ∧
    userAgentOf [("Accept-Language", "en")] = none ∧
    getFingerprint [("Accept-Language", "en")] (fun _ => [("a", "b")]) =
      assembleFingerprint [("Accept-Language", "en")] [("a", "b")] :=
  ⟨rfl,
    (c1_amended_no_missing_header_failure [("Accept-Language", "en")]
      (fun _ => [("a", "b")]) rfl rfl).1,
    (c1_amended_no_missing_header_failure [("Accept-Language", "en")]
      (fun _ => [("a", "b")]) rfl rfl).2.1⟩

/-- C4 counterexample: a header map with a User-Agent key but neither
Accept-Language form.  `getFingerprint` does not return a Result with an
empty languages sequence: line 106 calls `split` on the undefined
Accept-Language value and the call fails with a TypeError. -/
theorem c4_counterexample :
    objGet [("User-Agent", "u")] "User-Agent" = some "u" ∧
    objHas [("User-Agent", "u")] "Accept-Language" = false ∧
    objHas [("User-Agent", "u")] "accept-language" = false ∧
    getFingerprint [("User-Agent", "u")] (fun _ => []) =
      Except.error JsError.typeErrorUndefinedSplit :=
  ⟨rfl, rfl, rfl, rfl⟩

/-- C4 amended: when the header map contains a User-Agent key but neither
Accept-Language form, the call fails with the TypeError raised by line 106
splitting the undefined Accept-Language value; no Result is produced, so
languages is never set to the empty sequence.  The failure is pinned to
line 106 only where no earlier step throws: the raw sample must decode
(`hn`; the decode model rejects whatever the builtin would reject on the
modelled fragment) and the decoded characteristics mappings must not
re-use their own container key (`_hpmo`/`_hsmo` — outside that region the
source's hoist loop re-reads an overwritten container and can itself
throw a TypeError before line 104 is reached). -/
theorem c4_amended_missing_accept_language_fatal
    (headers : HeaderMap) (sampler : Option String → RawSample) (fp0 : Obj)
    (_hu : objHas headers "User-Agent" = true)
    (h1 : objHas headers "Accept-Language" = false)
    (h2 : objHas headers "accept-language" = false)
    (hn : normalizeSample (sampler (userAgentOf headers)) = Except.ok fp0)
    (_hpmo : "pluginCharacteristics" ∉ (enumerableEntries ((objGet fp0
        "pluginCharacteristics").getD JsonValue.null)).map Prod.fst)
    (_hsmo : "screenCharacteristics" ∉ (enumerableEntries ((objGet
        (hoistInto fp0 "pluginCharacteristics")
        "screenCharacteristics").getD JsonValue.null)).map Prod.fst) :
    getFingerprint headers sampler =
      Except.error JsError.typeErrorUndefinedSplit := by
  have hal : acceptLanguageOf headers = none := by
    unfold acceptLanguageOf
    simp only [h1, Bool.false_eq_true, if_false]
    exact objGet_eq_none_of_not_has h2
  rw [getFingerprint_eq]
  exact assembleFingerprint_noAcceptLanguage hn hal

theorem c4_amended_witness :
    objHas [("User-Agent", "u")] "User-Agent" = true ∧
    getFingerprint [("User-Agent", "u")] (fun _ => []) =
      Except.error JsError.typeErrorUndefinedSplit :=
  ⟨rfl, c4_amended_missing_accept_language_fatal [("User-Agent", "u")]
    (fun _ => []) [] rfl rfl rfl rfl (by decide) (by decide)⟩

end FPGen

namespace FPGen

/-- C7 counterexample: a raw sample whose `languages` attribute carries the
missing-value sentinel.  The decode pass drops the key, but line 109
unconditionally re-assigns `languages`, so the final fingerprint does
contain that attribute key — refuting the claim that the key is absent for
every attribute whose raw value is the sentinel. -/
theorem c7_counterexample :
    (("languages", MISSING_VALUE_DATASET_TOKEN) ∈
      ([("languages", "*MISSING_VALUE*")] : RawSample)) ∧
    getFingerprint [("Accept-Language", "en")]
        (fun _ => [("languages", "*MISSING_VALUE*")]) =
      Except.ok ⟨[("languages", JsonValue.arr [JsonValue.str "en"])],
        [("Accept-Language", "en")]⟩ ∧
    objHas [("languages", JsonValue.arr [JsonValue.str "en"])]
      "languages" = true :=
  ⟨List.mem_singleton.mpr rfl, rfl, rfl⟩

/-- C7 amended: an attribute whose raw value equals the missing-value
sentinel is dropped by the decode pass and is absent from the returned
fingerprint, unless the key is reintroduced afterwards — by the hoisting of
an identically-named entry out of `pluginCharacteristics` or
`screenCharacteristics` (`hk2`/`hk3` exclude such an entry), or by the
unconditional `languages` assignment (`hk1`).  `_hpmo`/`_hsmo` keep the
two hoisted mappings from re-using their own container key, the region on
which the single-read hoist model coincides with the source's
re-read-per-iteration loop. -/
theorem c7_amended_missing_dropped
    (headers : HeaderMap) (sampler : Option String → RawSample)
    (k : String) (r : GenResult) (fp0 : Obj)
    (hnd : ((sampler (userAgentOf headers)).map Prod.fst).Nodup)
    (hmiss : (k, MISSING_VALUE_DATASET_TOKEN) ∈ sampler (userAgentOf headers))
    (hok : getFingerprint headers sampler = Except.ok r)
    (hn : normalizeSample (sampler (userAgentOf headers)) = Except.ok fp0)
    (hk1 : k ≠ "languages")
    (hk2 : lastVal (enumerableEntries ((objGet fp0
        "pluginCharacteristics").getD JsonValue.null)) k = none)
    (hk3 : lastVal (enumerableEntries ((objGet
        (hoistInto fp0 "pluginCharacteristics")
        "screenCharacteristics").getD JsonValue.null)) k = none)
    (_hpmo : "pluginCharacteristics" ∉ (enumerableEntries ((objGet fp0
        "pluginCharacteristics").getD JsonValue.null)).map Prod.fst)
    (_hsmo : "screenCharacteristics" ∉ (enumerableEntries ((objGet
        (hoistInto fp0 "pluginCharacteristics")
        "screenCharacteristics").getD JsonValue.null)).map Prod.fst) :
    objHas r.fingerprint k = false := by
  have h0 : objGet fp0 k = none :=
    objGet_eq_none_of_not_has (normalizeSample_drops_missing hnd hmiss hn)
  have h1 : objGet (hoistInto fp0 "pluginCharacteristics") k = none := by
    rw [objGet_hoistInto]
    by_cases hc : objHas fp0 "pluginCharacteristics"
    · simp only [hc, if_true]
      by_cases hkc : k = "pluginCharacteristics"
      · simp [hkc]
      · simp only [if_neg hkc, hk2]
        exact h0
    · simp only [hc, Bool.false_eq_true, if_false]
      exact h0
  have h2 : objGet (hoistInto (hoistInto fp0 "pluginCharacteristics")
      "screenCharacteristics") k = none := by
    rw [objGet_hoistInto]
    by_cases hc : objHas (hoistInto fp0 "pluginCharacteristics")
        "screenCharacteristics"
    · simp only [hc, if_true]
      by_cases hkc : k = "screenCharacteristics"
      · simp [hkc]
      · simp only [if_neg hkc, hk3]
        exact h1
    · simp only [hc, Bool.false_eq_true, if_false]
      exact h1
  rcases getFingerprint_ok_shape hok with ⟨fp0x, al, hnx, halx, hr⟩
  rw [hn] at hnx
  have hfp : fp0x = fp0 := by
    injection hnx with h
    exact h.symm
  subst hfp
  rw [hr]
  show objHas (objSet _ "languages" _) k = false
  rw [objHas_eq_isSome, objGet_objSet, if_neg hk1, h2]
  rfl

theorem c7_amended_witness :
    (("x", MISSING_VALUE_DATASET_TOKEN) ∈
      ([("x", "*MISSING_VALUE*"), ("y", "z")] : RawSample)) ∧
    objHas (GenResult.fingerprint ⟨[("y", JsonValue.str "z"),
      ("languages", JsonValue.arr [JsonValue.str "en"])],
      [("Accept-Language", "en")]⟩) "x" = false :=
  ⟨List.mem_cons_self _ _,
    c7_amended_missing_dropped [("Accept-Language", "en")]
      (fun _ => [("x", "*MISSING_VALUE*"), ("y", "z")]) "x"
      ⟨[("y", JsonValue.str "z"),
        ("languages", JsonValue.arr [JsonValue.str "en"])],
        [("Accept-Language", "en")]⟩
      [("y", JsonValue.str "z")]
      (by decide) (List.mem_cons_self _ _) rfl rfl (by decide) rfl rfl
      (by decide) (by decide)⟩

end FPGen

namespace FPGen

theorem lastVal_singleton (a : String) (v : α) (k : String) :
    lastVal [(a, v)] k = if a == k then some v else none := rfl

/-- C6 counterexample: a raw sample whose `pluginCharacteristics` decodes to
the mapping `{"plugins": "*STRINGIFIED*[1,2,3]"}`.  The hoisting loop
copies the inner value verbatim without a second decode, so the final
fingerprint maps `plugins` to the still-encoded string, not to the decoded
array `[1,2,3]` the claim requires. -/
theorem c6_counterexample :
    decodeRawValue
        "*STRINGIFIED*\x7b\"plugins\": \"*STRINGIFIED*[1,2,3]\"\x7d" =
      Except.ok (some (JsonValue.obj
        [("plugins", JsonValue.str "*STRINGIFIED*[1,2,3]")])) ∧
    getFingerprint [("User-Agent", "u"), ("Accept-Language", "en")]
        (fun _ => [("pluginCharacteristics",
          "*STRINGIFIED*\x7b\"plugins\": \"*STRINGIFIED*[1,2,3]\"\x7d")]) =
      Except.ok ⟨[("plugins", JsonValue.str "*STRINGIFIED*[1,2,3]"),
        ("languages", JsonValue.arr [JsonValue.str "en"])],
        [("User-Agent", "u"), ("Accept-Language", "en")]⟩ ∧
    objGet [("plugins", JsonValue.str "*STRINGIFIED*[1,2,3]"),
        ("languages", JsonValue.arr [JsonValue.str "en"])] "plugins" =
      some (JsonValue.str "*STRINGIFIED*[1,2,3]") ∧
    some (JsonValue.str "*STRINGIFIED*[1,2,3]") ≠
      some (JsonValue.arr [JsonValue.num 1, JsonValue.num 2,
        JsonValue.num 3]) ∧
    objHas [("plugins", JsonValue.str "*STRINGIFIED*[1,2,3]"),
        ("languages", JsonValue.arr [JsonValue.str "en"])]
      "pluginCharacteristics" = false := by
  refine ⟨rfl, rfl, rfl, ?_, rfl⟩
  intro h
  injection h with h2
  cases h2

/-- C6 amended: for every raw sample whose normalized `pluginCharacteristics`
is the mapping `{plugins: v}` (with no `screenCharacteristics` present),
the fingerprint contains the top-level key `plugins` bound to `v` copied
verbatim — for the claim's sentinel-prefixed inner string this is the
undecoded string, not the decoded array — and no `pluginCharacteristics`
key. -/
theorem c6_amended_hoist_copies_verbatim
    (headers : HeaderMap) (sampler : Option String → RawSample)
    (fp0 : Obj) (v : JsonValue) (al : String)
    (hn : normalizeSample (sampler (userAgentOf headers)) = Except.ok fp0)
    (hp : objGet fp0 "pluginCharacteristics" =
      some (JsonValue.obj [("plugins", v)]))
    (hs : objHas fp0 "screenCharacteristics" = false)
    (hal : acceptLanguageOf headers = some al) :
    getFingerprint headers sampler =
      Except.ok ⟨objSet (hoistInto fp0 "pluginCharacteristics") "languages"
        (languagesValue al), headers⟩ ∧
    objGet (objSet (hoistInto fp0 "pluginCharacteristics") "languages"
      (languagesValue al)) "plugins" = some v ∧
    objHas (objSet (hoistInto fp0 "pluginCharacteristics") "languages"
      (languagesValue al)) "pluginCharacteristics" = false := by
  have hhasp : objHas fp0 "pluginCharacteristics" = true := by
    rw [objHas_eq_isSome, hp]
    rfl
  have hfp1s : objHas (hoistInto fp0 "pluginCharacteristics")
      "screenCharacteristics" = false := by
    rw [objHas_eq_isSome, objGet_hoistInto, if_pos hhasp,
      if_neg (by decide : ¬("screenCharacteristics" =
        "pluginCharacteristics")), hp]
    show (match lastVal (enumerableEntries (JsonValue.obj [("plugins", v)]))
        "screenCharacteristics" with
      | some w => some w
      | none => objGet fp0 "screenCharacteristics").isSome = false
    have he : enumerableEntries (JsonValue.obj [("plugins", v)]) =
        [("plugins", v)] := rfl
    rw [he, lastVal_singleton]
    simp only [show (("plugins" : String) == "screenCharacteristics") = false
      from rfl, Bool.false_eq_true, if_false]
    rw [objGet_eq_none_of_not_has hs]
    rfl
  have hfp1p : objGet (hoistInto fp0 "pluginCharacteristics") "plugins" =
      some v := by
    rw [objGet_hoistInto, if_pos hhasp,
      if_neg (by decide : ¬("plugins" = "pluginCharacteristics")), hp]
    show (match lastVal (enumerableEntries (JsonValue.obj [("plugins", v)]))
        "plugins" with
      | some w => some w
      | none => objGet fp0 "plugins") = some v
    have he : enumerableEntries (JsonValue.obj [("plugins", v)]) =
        [("plugins", v)] := rfl
    rw [he, lastVal_singleton]
    simp only [show (("plugins" : String) == "plugins") = true from rfl,
      if_true]
  have hfp1c : objGet (hoistInto fp0 "pluginCharacteristics")
      "pluginCharacteristics" = none := by
    rw [objGet_hoistInto, if_pos hhasp, if_pos rfl]
  refine ⟨?_, ?_, ?_⟩
  · rw [getFingerprint_eq, assembleFingerprint_ok hn hal,
      objGet_hoistInto_not_has hfp1s]
  · rw [objGet_objSet, if_neg (by decide : ¬("plugins" = "languages"))]
    exact hfp1p
  · rw [objHas_eq_isSome, objGet_objSet,
      if_neg (by decide : ¬("pluginCharacteristics" = "languages")), hfp1c]
    rfl

theorem c6_amended_witness :
    objGet [("pluginCharacteristics", JsonValue.obj [("plugins",
        JsonValue.str "*STRINGIFIED*[1,2,3]")])] "pluginCharacteristics" =
      some (JsonValue.obj [("plugins",
        JsonValue.str "*STRINGIFIED*[1,2,3]")]) ∧
    objGet (objSet (hoistInto [("pluginCharacteristics", JsonValue.obj
        [("plugins", JsonValue.str "*STRINGIFIED*[1,2,3]")])]
        "pluginCharacteristics") "languages" (languagesValue "en"))
      "plugins" = some (JsonValue.str "*STRINGIFIED*[1,2,3]") ∧
    objHas (objSet (hoistInto [("pluginCharacteristics", JsonValue.obj
        [("plugins", JsonValue.str "*STRINGIFIED*[1,2,3]")])]
        "pluginCharacteristics") "languages" (languagesValue "en"))
      "pluginCharacteristics" = false :=
  ⟨rfl,
    (c6_amended_hoist_copies_verbatim
      [("User-Agent", "u"), ("Accept-Language", "en")]
      (fun _ => [("pluginCharacteristics",
        "*STRINGIFIED*\x7b\"plugins\": \"*STRINGIFIED*[1,2,3]\"\x7d")])
      [("pluginCharacteristics", JsonValue.obj [("plugins",
        JsonValue.str "*STRINGIFIED*[1,2,3]")])]
      (JsonValue.str "*STRINGIFIED*[1,2,3]") "en"
      rfl rfl rfl rfl).2.1,
    (c6_amended_hoist_copies_verbatim
      [("User-Agent", "u"), ("Accept-Language", "en")]
      (fun _ => [("pluginCharacteristics",
        "*STRINGIFIED*\x7b\"plugins\": \"*STRINGIFIED*[1,2,3]\"\x7d")])
      [("pluginCharacteristics", JsonValue.obj [("plugins",
        JsonValue.str "*STRINGIFIED*[1,2,3]")])]
      (JsonValue.str "*STRINGIFIED*[1,2,3]") "en"
      rfl rfl rfl rfl).2.2⟩

end FPGen

namespace FPGen

theorem lastVal_eq_none_of_not_mem {entries : List (String × α)} {k : String}
    (h : k ∉ entries.map Prod.fst) : lastVal entries k = none := by
  induction entries with
  | nil => rfl
  | cons e rest ih =>
    simp only [List.map_cons, List.mem_cons, not_or] at h
    unfold lastVal
    rw [ih h.2]
    have : (e.1 == k) = false := by
      simp only [beq_eq_false_iff_ne]
      exact fun hh => h.1 hh.symm
    simp [this]

theorem lastVal_mem {entries : List (String × α)} {k : String} {v : α}
    (h : lastVal entries k = some v) : k ∈ entries.map Prod.fst := by
  revert h
  induction entries generalizing v with
  | nil => intro h; cases h
  | cons e rest ih =>
    intro h
    unfold lastVal at h
    cases hr : lastVal rest k with
    | some w => exact List.mem_cons_of_mem _ (ih hr)
    | none =>
      rw [hr] at h
      by_cases he : e.1 = k
      · simp [he]
      · have hb : (e.1 == k) = false := by simp [he]
        rw [hb] at h
        cases h

theorem lastVal_of_mem_nodup {entries : List (String × α)} {k : String}
    {v : α} (hnd : (entries.map Prod.fst).Nodup) (hm : (k, v) ∈ entries) :
    lastVal entries k = some v := by
  induction entries with
  | nil => cases hm
  | cons e rest ih =>
    rw [List.map_cons, List.nodup_cons] at hnd
    rcases List.mem_cons.mp hm with h1 | h1
    · have hk : e.1 = k := by rw [← h1]
      have hnot : k ∉ rest.map Prod.fst := by
        rw [← hk]
        exact hnd.1
      unfold lastVal
      rw [lastVal_eq_none_of_not_mem hnot]
      have hb : (e.1 == k) = true := by simp [hk]
      rw [hb]
      simp only [if_true, Option.some.injEq]
      rw [← h1]
    · unfold lastVal
      rw [ih hnd.2 h1]

end FPGen

namespace FPGen

/-- C9 counterexample: decoded mappings `pluginCharacteristics = {}` and
`screenCharacteristics = {pluginCharacteristics: 1}` have disjoint key
sets, yet the two hoisting orders produce different fingerprints: the
source order leaves `pluginCharacteristics = 1` in the result while the
swapped order deletes it. -/
theorem c9_counterexample :
    objGet [("pluginCharacteristics", JsonValue.obj []),
        ("screenCharacteristics", JsonValue.obj
          [("pluginCharacteristics", JsonValue.num 1)])]
        "pluginCharacteristics" = some (JsonValue.obj []) ∧
    objGet [("pluginCharacteristics", JsonValue.obj []),
        ("screenCharacteristics", JsonValue.obj
          [("pluginCharacteristics", JsonValue.num 1)])]
        "screenCharacteristics" =
      some (JsonValue.obj [("pluginCharacteristics", JsonValue.num 1)]) ∧
    (∀ k, k ∈ (([] : Obj).map Prod.fst) →
      k ∉ ([("pluginCharacteristics", JsonValue.num 1)].map Prod.fst)) ∧
    objGet (hoistInto (hoistInto
        [("pluginCharacteristics", JsonValue.obj []),
          ("screenCharacteristics", JsonValue.obj
            [("pluginCharacteristics", JsonValue.num 1)])]
        "pluginCharacteristics") "screenCharacteristics")
      "pluginCharacteristics" = some (JsonValue.num 1) ∧
    objGet (hoistInto (hoistInto
        [("pluginCharacteristics", JsonValue.obj []),
          ("screenCharacteristics", JsonValue.obj
            [("pluginCharacteristics", JsonValue.num 1)])]
        "screenCharacteristics") "pluginCharacteristics")
      "pluginCharacteristics" = none ∧
    (some (JsonValue.num 1) : Option JsonValue) ≠ none := by
  refine ⟨rfl, rfl, ?_, rfl, rfl, ?_⟩
  · intro k hk
    cases hk
  · intro h
    cases h

/-- C9 amended: provided neither decoded mapping mentions the container
names `pluginCharacteristics`/`screenCharacteristics` as keys, the two
hoisting orders agree whenever the mappings' key sets are disjoint; and
for a key present in both mappings, the value hoisted from
`screenCharacteristics` (applied last in the source order) is the one in
the final fingerprint. -/
theorem c9_amended_hoist_order
    (fp : Obj) (pm sm : List (String × JsonValue))
    (hp : objGet fp "pluginCharacteristics" = some (JsonValue.obj pm))
    (hs : objGet fp "screenCharacteristics" = some (JsonValue.obj sm))
    (_hcp1 : "pluginCharacteristics" ∉ pm.map Prod.fst)
    (hcp2 : "screenCharacteristics" ∉ pm.map Prod.fst)
    (hcs1 : "pluginCharacteristics" ∉ sm.map Prod.fst)
    (hcs2 : "screenCharacteristics" ∉ sm.map Prod.fst) :
    ((∀ k ∈ pm.map Prod.fst, k ∉ sm.map Prod.fst) →
      ∀ k, objGet (hoistInto (hoistInto fp "pluginCharacteristics")
          "screenCharacteristics") k =
        objGet (hoistInto (hoistInto fp "screenCharacteristics")
          "pluginCharacteristics") k) ∧
    (∀ k v, (sm.map Prod.fst).Nodup → (k, v) ∈ sm →
      k ∈ pm.map Prod.fst →
      objGet (hoistInto (hoistInto fp "pluginCharacteristics")
        "screenCharacteristics") k = some v) := by
  have hhp : objHas fp "pluginCharacteristics" = true := by
    rw [objHas_eq_isSome, hp]
    rfl
  have hhs : objHas fp "screenCharacteristics" = true := by
    rw [objHas_eq_isSome, hs]
    rfl
  have hA : ∀ k, k ≠ "pluginCharacteristics" →
      objGet (hoistInto fp "pluginCharacteristics") k =
        match lastVal pm k with
        | some v => some v
        | none => objGet fp k := by
    intro k hk
    rw [objGet_hoistInto, if_pos hhp, if_neg hk, hp]
    have hee : enumerableEntries ((some (JsonValue.obj pm)).getD
        JsonValue.null) = pm := rfl
    rw [hee]
  have hAp : objGet (hoistInto fp "pluginCharacteristics")
      "pluginCharacteristics" = none := by
    rw [objGet_hoistInto, if_pos hhp, if_pos rfl]
  have hB : ∀ k, k ≠ "screenCharacteristics" →
      objGet (hoistInto fp "screenCharacteristics") k =
        match lastVal sm k with
        | some v => some v
        | none => objGet fp k := by
    intro k hk
    rw [objGet_hoistInto, if_pos hhs, if_neg hk, hs]
    have hee : enumerableEntries ((some (JsonValue.obj sm)).getD
        JsonValue.null) = sm := rfl
    rw [hee]
  have hBs : objGet (hoistInto fp "screenCharacteristics")
      "screenCharacteristics" = none := by
    rw [objGet_hoistInto, if_pos hhs, if_pos rfl]
  have hAs : objGet (hoistInto fp "pluginCharacteristics")
      "screenCharacteristics" = some (JsonValue.obj sm) := by
    rw [hA _ (by decide : ("screenCharacteristics" : String) ≠
      "pluginCharacteristics"), lastVal_eq_none_of_not_mem hcp2]
    exact hs
  have hBp : objGet (hoistInto fp "screenCharacteristics")
      "pluginCharacteristics" = some (JsonValue.obj pm) := by
    rw [hB _ (by decide : ("pluginCharacteristics" : String) ≠
      "screenCharacteristics"), lastVal_eq_none_of_not_mem hcs1]
    exact hp
  have hhAs : objHas (hoistInto fp "pluginCharacteristics")
      "screenCharacteristics" = true := by
    rw [objHas_eq_isSome, hAs]
    rfl
  have hhBp : objHas (hoistInto fp "screenCharacteristics")
      "pluginCharacteristics" = true := by
    rw [objHas_eq_isSome, hBp]
    rfl
  have hA2 : ∀ k, k ≠ "screenCharacteristics" →
      objGet (hoistInto (hoistInto fp "pluginCharacteristics")
          "screenCharacteristics") k =
        match lastVal sm k with
        | some v => some v
        | none => objGet (hoistInto fp "pluginCharacteristics") k := by
    intro k hk
    rw [objGet_hoistInto, if_pos hhAs, if_neg hk, hAs]
    have hee : enumerableEntries ((some (JsonValue.obj sm)).getD
        JsonValue.null) = sm := rfl
    rw [hee]
  have hA2s : objGet (hoistInto (hoistInto fp "pluginCharacteristics")
      "screenCharacteristics") "screenCharacteristics" = none := by
    rw [objGet_hoistInto, if_pos hhAs, if_pos rfl]
  have hB2 : ∀ k, k ≠ "pluginCharacteristics" →
      objGet (hoistInto (hoistInto fp "screenCharacteristics")
          "pluginCharacteristics") k =
        match lastVal pm k with
        | some v => some v
        | none => objGet (hoistInto fp "screenCharacteristics") k := by
    intro k hk
    rw [objGet_hoistInto, if_pos hhBp, if_neg hk, hBp]
    have hee : enumerableEntries ((some (JsonValue.obj pm)).getD
        JsonValue.null) = pm := rfl
    rw [hee]
  have hB2p : objGet (hoistInto (hoistInto fp "screenCharacteristics")
      "pluginCharacteristics") "pluginCharacteristics" = none := by
    rw [objGet_hoistInto, if_pos hhBp, if_pos rfl]
  constructor
  · intro hdisj k
    by_cases hkp : k = "pluginCharacteristics"
    · subst hkp
      have e1 : objGet (hoistInto (hoistInto fp "pluginCharacteristics")
          "screenCharacteristics") "pluginCharacteristics" = none := by
        rw [hA2 _ (by decide : ("pluginCharacteristics" : String) ≠
          "screenCharacteristics"), lastVal_eq_none_of_not_mem hcs1]
        exact hAp
      rw [e1, hB2p]
    · by_cases hks : k = "screenCharacteristics"
      · subst hks
        have e2 : objGet (hoistInto (hoistInto fp "screenCharacteristics")
            "pluginCharacteristics") "screenCharacteristics" = none := by
          rw [hB2 _ (by decide : ("screenCharacteristics" : String) ≠
            "pluginCharacteristics"), lastVal_eq_none_of_not_mem hcp2]
          exact hBs
        rw [hA2s, e2]
      · rw [hA2 k hks, hB2 k hkp]
        cases h1 : lastVal pm k with
        | some w =>
          have h2 : lastVal sm k = none :=
            lastVal_eq_none_of_not_mem (hdisj k (lastVal_mem h1))
          rw [h2]
          show objGet (hoistInto fp "pluginCharacteristics") k = some w
          rw [hA k hkp, h1]
        | none =>
          cases h2 : lastVal sm k with
          | some v =>
            show (some v : Option JsonValue) =
              objGet (hoistInto fp "screenCharacteristics") k
            rw [hB k hks, h2]
          | none =>
            show objGet (hoistInto fp "pluginCharacteristics") k =
              objGet (hoistInto fp "screenCharacteristics") k
            rw [hA k hkp, hB k hks, h1, h2]
  · intro k v hnd hmem hkpm
    have hkmem : k ∈ sm.map Prod.fst :=
      List.mem_map.mpr ⟨(k, v), hmem, rfl⟩
    have hks : k ≠ "screenCharacteristics" := by
      intro he
      rw [he] at hkmem
      exact hcs2 hkmem
    rw [hA2 k hks, lastVal_of_mem_nodup hnd hmem]

end FPGen

namespace FPGen

theorem c9_amended_witness :
    objGet (hoistInto (hoistInto
        [("pluginCharacteristics", JsonValue.obj [("a", JsonValue.num 1)]),
          ("screenCharacteristics", JsonValue.obj [("b", JsonValue.num 2)])]
        "pluginCharacteristics") "screenCharacteristics") "a" =
      objGet (hoistInto (hoistInto
        [("pluginCharacteristics", JsonValue.obj [("a", JsonValue.num 1)]),
          ("screenCharacteristics", JsonValue.obj [("b", JsonValue.num 2)])]
        "screenCharacteristics") "pluginCharacteristics") "a" ∧
    objGet (hoistInto (hoistInto
        [("pluginCharacteristics",
            JsonValue.obj [("shared", JsonValue.num 2)]),
          ("screenCharacteristics",
            JsonValue.obj [("shared", JsonValue.num 4)])]
        "pluginCharacteristics") "screenCharacteristics") "shared" =
      some (JsonValue.num 4) :=
  ⟨(c9_amended_hoist_order
      [("pluginCharacteristics", JsonValue.obj [("a", JsonValue.num 1)]),
        ("screenCharacteristics", JsonValue.obj [("b", JsonValue.num 2)])]
      [("a", JsonValue.num 1)] [("b", JsonValue.num 2)]
      rfl rfl (by decide) (by decide) (by decide) (by decide)).1
    (by decide) "a",
   (c9_amended_hoist_order
      [("pluginCharacteristics", JsonValue.obj [("shared", JsonValue.num 2)]),
        ("screenCharacteristics", JsonValue.obj [("shared", JsonValue.num 4)])]
      [("shared", JsonValue.num 2)] [("shared", JsonValue.num 4)]
      rfl rfl (by decide) (by decide) (by decide) (by decide)).2
    "shared" (JsonValue.num 4) (by decide)
    (List.mem_singleton.mpr rfl) (by simp)⟩

end FPGen

namespace FPGen

/-- C3 counterexample: a `locales` array of length 11 — exceeding the
claimed bound of 10 — passes validation (the shape puts no length
constraint on `locales`), and the full call returns a Result instead of
failing with a ValidationError. -/
theorem c3_counterexample :
    validateOptions (JsonValue.obj [("locales", JsonValue.arr
      [JsonValue.str "l01", JsonValue.str "l02", JsonValue.str "l03",
       JsonValue.str "l04", JsonValue.str "l05", JsonValue.str "l06",
       JsonValue.str "l07", JsonValue.str "l08", JsonValue.str "l09",
       JsonValue.str "l10", JsonValue.str "l11"])]) = Except.ok () ∧
    ([JsonValue.str "l01", JsonValue.str "l02", JsonValue.str "l03",
      JsonValue.str "l04", JsonValue.str "l05", JsonValue.str "l06",
      JsonValue.str "l07", JsonValue.str "l08", JsonValue.str "l09",
      JsonValue.str "l10", JsonValue.str "l11"].length = 11 ∧ 10 < 11) ∧
    getFingerprintChecked (JsonValue.obj [("locales", JsonValue.arr
        [JsonValue.str "l01", JsonValue.str "l02", JsonValue.str "l03",
         JsonValue.str "l04", JsonValue.str "l05", JsonValue.str "l06",
         JsonValue.str "l07", JsonValue.str "l08", JsonValue.str "l09",
         JsonValue.str "l10", JsonValue.str "l11"])])
      [("Accept-Language", "en")] (fun _ => []) =
      Except.ok ⟨[("languages", JsonValue.arr [JsonValue.str "en"])],
        [("Accept-Language", "en")]⟩ :=
  ⟨rfl, ⟨rfl, by decide⟩, rfl⟩

/-- C3 amended: whenever the supplied options object contains an
unrecognized top-level key or a recognized field whose value fails its
declared shape, validation fails with a ValidationError naming an
offending field, and the whole call fails the same way for every header
generator and sampler behaviour — no partial Result is produced and the
Header Generator is not consulted.  The `locales` length is NOT checked:
the shape (source line 29) bounds neither the array length nor its
contents beyond being strings. -/
theorem c3_amended_validation
    (fields : List (String × JsonValue)) (k : String) (v : JsonValue)
    (hmem : (k, v) ∈ fields)
    (hbad : k ∉ knownOptionKeys ∨ optionFieldOk k v = false) :
    ∃ f vf, validateOptions (JsonValue.obj fields) = Except.error f ∧
      ((f, vf) ∈ fields ∧ optionFieldOk f vf = false) ∧
      ∀ (headers : HeaderMap) (sampler : Option String → RawSample),
        getFingerprintChecked (JsonValue.obj fields) headers sampler =
          Except.error (JsError.validationError f) := by
  have hb : optionFieldOk k v = false := by
    rcases hbad with h | h
    · simp only [knownOptionKeys, List.mem_cons, List.mem_singleton,
        not_or] at h
      obtain ⟨h1, h2, h3, h4, h5⟩ := h
      simp [optionFieldOk, h1, h2, h3, h4, h5]
    · exact h
  have hexists : (fields.find? (fun kv => !optionFieldOk kv.1 kv.2)).isSome := by
    rw [List.find?_isSome]
    exact ⟨(k, v), hmem, by simp [hb]⟩
  cases hfind : fields.find? (fun kv => !optionFieldOk kv.1 kv.2) with
  | none => rw [hfind] at hexists; cases hexists
  | some kv =>
    have hmem2 : kv ∈ fields := List.mem_of_find?_eq_some hfind
    have hpred := List.find?_some hfind
    refine ⟨kv.1, kv.2, ?_, ⟨?_, ?_⟩, ?_⟩
    · show (match fields.find? (fun kv => !optionFieldOk kv.1 kv.2) with
        | some kv => Except.error kv.1
        | none => Except.ok ()) = Except.error kv.1
      rw [hfind]
    · simpa using hmem2
    · simpa using hpred
    · intro headers sampler
      show (match (match fields.find? (fun kv => !optionFieldOk kv.1 kv.2)
          with
        | some kv => (Except.error kv.1 : Except String Unit)
        | none => Except.ok ()) with
        | Except.error f => Except.error (JsError.validationError f)
        | Except.ok _ => getFingerprint headers sampler) =
        Except.error (JsError.validationError kv.1)
      rw [hfind]

theorem c3_amended_witness :
    (("bogus", JsonValue.num 1) ∈
      ([("bogus", JsonValue.num 1)] : List (String × JsonValue))) ∧
    (∃ f vf, validateOptions (JsonValue.obj [("bogus", JsonValue.num 1)]) =
        Except.error f ∧
      ((f, vf) ∈ ([("bogus", JsonValue.num 1)] :
        List (String × JsonValue)) ∧ optionFieldOk f vf = false) ∧
      ∀ (headers : HeaderMap) (sampler : Option String → RawSample),
        getFingerprintChecked (JsonValue.obj [("bogus", JsonValue.num 1)])
          headers sampler =
          Except.error (JsError.validationError f)) :=
  ⟨List.mem_singleton.mpr rfl,
    c3_amended_validation [("bogus", JsonValue.num 1)] "bogus"
      (JsonValue.num 1) (List.mem_singleton.mpr rfl)
      (Or.inl (by decide))⟩

end FPGen

namespace FPGen

/-- A top-level value that still carries a sentinel: the missing-value
token, or a string bearing the stringified token. -/
def isSentinelValue : JsonValue → Bool
  | JsonValue.str s =>
    s == MISSING_VALUE_DATASET_TOKEN || strStartsWith s STRINGIFIED_PREFIX
  | _ => false

/-- C2 counterexample: a raw sample whose `pluginCharacteristics` decodes to
`{"a": "*MISSING_VALUE*"}`.  Hoisting copies the inner value verbatim, so
the returned fingerprint maps `a` to the missing-value sentinel — refuting
the claim that no value of the fingerprint equals that sentinel. -/
theorem c2_counterexample :
    getFingerprint [("User-Agent", "u"), ("Accept-Language", "en")]
        (fun _ => [("pluginCharacteristics",
          "*STRINGIFIED*\x7b\"a\": \"*MISSING_VALUE*\"\x7d")]) =
      Except.ok ⟨[("a", JsonValue.str "*MISSING_VALUE*"),
        ("languages", JsonValue.arr [JsonValue.str "en"])],
        [("User-Agent", "u"), ("Accept-Language", "en")]⟩ ∧
    objGet [("a", JsonValue.str "*MISSING_VALUE*"),
        ("languages", JsonValue.arr [JsonValue.str "en"])] "a" =
      some (JsonValue.str MISSING_VALUE_DATASET_TOKEN) ∧
    isSentinelValue (JsonValue.str MISSING_VALUE_DATASET_TOKEN) = true :=
  ⟨rfl, rfl, rfl⟩

/-- C2 amended: the claimed invariant holds for every raw sample whose
decoded top-level values carry no sentinel (`h0`), whose hoisted
`pluginCharacteristics`/`screenCharacteristics` entries carry no sentinel
(`hpm`/`hsm` — values hoisted out of the two characteristics mappings are
copied verbatim, so sentinels inside them would survive into the result),
whose hoisted `screenCharacteristics` entries do not use the key name
`pluginCharacteristics` (`hsmp` — such an entry would put that key back),
and whose two hoisted mappings do not re-use their own container key
(`_hpmo`/`_hsmo` — the region on which the single-read hoist model
coincides with the source's re-read-per-iteration loop): the returned
fingerprint then has no `pluginCharacteristics`/`screenCharacteristics`
key, no sentinel value, and a `languages` key holding a sequence of
strings. -/
theorem c2_amended_fingerprint_invariant
    (headers : HeaderMap) (sampler : Option String → RawSample)
    (r : GenResult) (fp0 : Obj)
    (hok : getFingerprint headers sampler = Except.ok r)
    (hn : normalizeSample (sampler (userAgentOf headers)) = Except.ok fp0)
    (h0 : ∀ kv ∈ fp0, isSentinelValue kv.2 = false)
    (hpm : ∀ kv ∈ enumerableEntries ((objGet fp0
        "pluginCharacteristics").getD JsonValue.null),
      isSentinelValue kv.2 = false)
    (hsm : ∀ kv ∈ enumerableEntries ((objGet
        (hoistInto fp0 "pluginCharacteristics")
        "screenCharacteristics").getD JsonValue.null),
      isSentinelValue kv.2 = false)
    (hsmp : "pluginCharacteristics" ∉ (enumerableEntries ((objGet
        (hoistInto fp0 "pluginCharacteristics")
        "screenCharacteristics").getD JsonValue.null)).map Prod.fst)
    (_hpmo : "pluginCharacteristics" ∉ (enumerableEntries ((objGet fp0
        "pluginCharacteristics").getD JsonValue.null)).map Prod.fst)
    (_hsmo : "screenCharacteristics" ∉ (enumerableEntries ((objGet
        (hoistInto fp0 "pluginCharacteristics")
        "screenCharacteristics").getD JsonValue.null)).map Prod.fst) :
    objGet r.fingerprint "pluginCharacteristics" = none ∧
    objGet r.fingerprint "screenCharacteristics" = none ∧
    (∀ kv ∈ r.fingerprint, isSentinelValue kv.2 = false) ∧
    ∃ langs : List String, objGet r.fingerprint "languages" =
      some (JsonValue.arr (langs.map JsonValue.str)) := by
  rcases getFingerprint_ok_shape hok with ⟨fp0x, al, hnx, halx, hr⟩
  rw [hn] at hnx
  have hfp : fp0 = fp0x := Except.ok.inj hnx
  subst hfp
  have hfp1pc : objGet (hoistInto fp0 "pluginCharacteristics")
      "pluginCharacteristics" = none := by
    by_cases h : objHas fp0 "pluginCharacteristics"
    · rw [objGet_hoistInto, if_pos h, if_pos rfl]
    · rw [objGet_hoistInto_not_has (by simpa using h)]
      exact objGet_eq_none_of_not_has (by simpa using h)
  have hfp2pc : objGet (hoistInto (hoistInto fp0 "pluginCharacteristics")
      "screenCharacteristics") "pluginCharacteristics" = none := by
    by_cases h : objHas (hoistInto fp0 "pluginCharacteristics")
        "screenCharacteristics"
    · rw [objGet_hoistInto, if_pos h,
        if_neg (by decide : ¬("pluginCharacteristics" =
          "screenCharacteristics")), lastVal_eq_none_of_not_mem hsmp]
      exact hfp1pc
    · rw [objGet_hoistInto_not_has (by simpa using h)]
      exact hfp1pc
  have hfp2sc : objGet (hoistInto (hoistInto fp0 "pluginCharacteristics")
      "screenCharacteristics") "screenCharacteristics" = none := by
    by_cases h : objHas (hoistInto fp0 "pluginCharacteristics")
        "screenCharacteristics"
    · rw [objGet_hoistInto, if_pos h, if_pos rfl]
    · rw [objGet_hoistInto_not_has (by simpa using h)]
      exact objGet_eq_none_of_not_has (by simpa using h)
  subst hr
  refine ⟨?_, ?_, ?_, ?_⟩
  · show objGet (objSet _ "languages" _) "pluginCharacteristics" = none
    rw [objGet_objSet,
      if_neg (by decide : ¬("pluginCharacteristics" = "languages"))]
    exact hfp2pc
  · show objGet (objSet _ "languages" _) "screenCharacteristics" = none
    rw [objGet_objSet,
      if_neg (by decide : ¬("screenCharacteristics" = "languages"))]
    exact hfp2sc
  · intro kv hkv
    rcases mem_objSet hkv with h | h
    · rw [h]
      rfl
    · rcases mem_hoistInto h with h2 | h2
      · rcases mem_hoistInto h2 with h3 | h3
        · exact h0 kv h3
        · exact hpm kv h3
      · exact hsm kv h2
  · refine ⟨acceptedLanguagesOf al, ?_⟩
    show objGet (objSet _ "languages" _) "languages" = _
    rw [objGet_objSet, if_pos rfl]
    rfl

theorem c2_amended_witness :
    getFingerprint [("User-Agent", "u"), ("Accept-Language", "en")]
        (fun _ => [("a", "x"),
          ("pluginCharacteristics", "*STRINGIFIED*\x7b\"p\":1\x7d"),
          ("screenCharacteristics", "*STRINGIFIED*\x7b\"s\":2\x7d")]) =
      Except.ok ⟨[("a", JsonValue.str "x"), ("p", JsonValue.num 1),
        ("s", JsonValue.num 2),
        ("languages", JsonValue.arr [JsonValue.str "en"])],
        [("User-Agent", "u"), ("Accept-Language", "en")]⟩ ∧
    (objGet (GenResult.fingerprint ⟨[("a", JsonValue.str "x"),
        ("p", JsonValue.num 1), ("s", JsonValue.num 2),
        ("languages", JsonValue.arr [JsonValue.str "en"])],
        [("User-Agent", "u"), ("Accept-Language", "en")]⟩)
        "pluginCharacteristics" = none ∧
      objGet (GenResult.fingerprint ⟨[("a", JsonValue.str "x"),
        ("p", JsonValue.num 1), ("s", JsonValue.num 2),
        ("languages", JsonValue.arr [JsonValue.str "en"])],
        [("User-Agent", "u"), ("Accept-Language", "en")]⟩)
        "screenCharacteristics" = none ∧
      (∀ kv ∈ GenResult.fingerprint ⟨[("a", JsonValue.str "x"),
        ("p", JsonValue.num 1), ("s", JsonValue.num 2),
        ("languages", JsonValue.arr [JsonValue.str "en"])],
        [("User-Agent", "u"), ("Accept-Language", "en")]⟩,
        isSentinelValue kv.2 = false) ∧
      ∃ langs : List String,
        objGet (GenResult.fingerprint ⟨[("a", JsonValue.str "x"),
          ("p", JsonValue.num 1), ("s", JsonValue.num 2),
          ("languages", JsonValue.arr [JsonValue.str "en"])],
          [("User-Agent", "u"), ("Accept-Language", "en")]⟩) "languages" =
          some (JsonValue.arr (langs.map JsonValue.str))) :=
  ⟨rfl,
    c2_amended_fingerprint_invariant
      [("User-Agent", "u"), ("Accept-Language", "en")]
      (fun _ => [("a", "x"),
        ("pluginCharacteristics", "*STRINGIFIED*\x7b\"p\":1\x7d"),
        ("screenCharacteristics", "*STRINGIFIED*\x7b\"s\":2\x7d")])
      ⟨[("a", JsonValue.str "x"), ("p", JsonValue.num 1),
        ("s", JsonValue.num 2),
        ("languages", JsonValue.arr [JsonValue.str "en"])],
        [("User-Agent", "u"), ("Accept-Language", "en")]⟩
      [("a", JsonValue.str "x"),
        ("pluginCharacteristics", JsonValue.obj [("p", JsonValue.num 1)]),
        ("screenCharacteristics", JsonValue.obj [("s", JsonValue.num 2)])]
      rfl rfl (by decide) (by decide) (by decide) (by decide)
      (by decide) (by decide)⟩

end FPGen
